import Mathlib

/-
Verification of the sampling/smoothing core of speedometer_simple.py.

Shallow embedding conventions:
- A sample is a pair `(timestamp, counter) : ℚ × ℤ`.  Python's float
  timestamps are modelled as exact rationals; byte counters are integers
  (Python 2 int/long).
- Python `long(x)` (truncation of a float toward zero) is `pylong`.
- Python 2 `/` on two longs is floor division, `Int.fdiv`.
- A Python function that can raise AssertionError and can also return
  None is modelled as `Except String (Option _)`:
  `.error msg` = assertion failure, `.ok none` = `return None`,
  `.ok (some v)` = a real value.
- `time.time()` inside `update` is an external input; the embedded
  `update` takes the timestamp as an argument.
-/

/-- Python 2 `long(x)` applied to a number: truncation toward zero.
For a rational `q = num/den` (den > 0, reduced) this is T-division of
`num` by `den`. -/
def pylong (q : ℚ) : ℤ :=
  Int.tdiv q.num (q.den : ℤ)

/-- `delta_to_speed(delta)` from speedometer_simple.py lines 204-210:
    if time_passed <= 0: return 0
    if long(time_passed*1000) == 0: return 0
    return long(byte_increase*1000)/long(time_passed*1000)
The final `/` is Python 2 long floor division.  `byte_increase` is a
rational because `curve` passes a float accumulator in that slot. -/
def delta_to_speed (time_passed byte_increase : ℚ) : ℤ :=
  if time_passed ≤ 0 then 0
  else if pylong (time_passed * 1000) = 0 then 0
  else Int.fdiv (pylong (byte_increase * 1000)) (pylong (time_passed * 1000))

/-- The Speedometer state: `log` is the list of `(timestamp, bytes)`
readings, newest last; `start` is the first reading ever recorded;
`maxlog` bounds the retained history. -/
structure Speedometer where
  log : List (ℚ × ℤ)
  start : Option (ℚ × ℤ)
  maxlog : ℕ
deriving Repr, DecidableEq

/-- `Speedometer.__init__`: empty log, no start sample. -/
def Speedometer.init (maxlog : ℕ) : Speedometer :=
  { log := [], start := none, maxlog := maxlog }

/-- Python `l[-k:]` for `k ≥ 1`: the last `min k (length l)` elements. -/
def lastN (k : ℕ) (l : List α) : List α :=
  l.drop (l.length - k)

/-- `Speedometer.update(bytes)` (lines 39-46): record `(t, bytes)`,
set `start` if this is the first reading (a 2-tuple is always truthy in
Python, so `if not self.start` tests exactly `start is None`), then
truncate the log to its last `maxlog + 1` entries
(`self.log = self.log[-(self.maxlog+1):]`). -/
def Speedometer.update (spd : Speedometer) (t : ℚ) (bytes : ℤ) : Speedometer :=
  let reading : ℚ × ℤ := (t, bytes)
  { log := lastN (spd.maxlog + 1) (spd.log ++ [reading])
    start := match spd.start with
      | none => some reading
      | some s => some s
    maxlog := spd.maxlog }

/-- Feed a list of `(timestamp, bytes)` readings through `update` in
order. -/
def Speedometer.recordAll (spd : Speedometer) (samples : List (ℚ × ℤ)) : Speedometer :=
  samples.foldl (fun s p => s.update p.1 p.2) spd

/-- The `current` sample selected by `delta` (lines 58-59):
`if skip > len(self.log)-1: return` (over the integers this is
`len(log) ≤ skip`), otherwise `current = self.log[-1-skip]`. -/
def Speedometer.currentSample (spd : Speedometer) (skip : ℕ) : Option (ℚ × ℤ) :=
  if spd.log.length ≤ skip then none
  else spd.log[spd.log.length - 1 - skip]?

/-- The `target` sample selected by `delta` (lines 60-63): `start` when
`readings == 0`, else `self.log[-(readings+skip+1)]` provided
`len(self.log) > readings+skip`, else None. -/
def Speedometer.targetSample (spd : Speedometer) (readings skip : ℕ) : Option (ℚ × ℤ) :=
  if readings = 0 then spd.start
  else if readings + skip < spd.log.length then
    spd.log[spd.log.length - (readings + skip + 1)]?
  else none

/-- `Speedometer.delta(readings=0, skip=0)` (lines 48-68).  The four
`assert` statements become `.error`; the `return`-with-no-value paths
become `.ok none`; `target == current` is Python tuple value equality.
On success the result is `(time_passed, byte_increase)`. -/
def Speedometer.delta (spd : Speedometer) (readings skip : ℤ) : Except String (Option (ℚ × ℤ)) :=
  if ¬ 0 ≤ readings then .error "readings must be nonnegative"
  else if ¬ readings ≤ (spd.maxlog : ℤ) then .error "Log is not long enough to satisfy request"
  else if ¬ 0 ≤ skip then .error "skip must be nonnegative"
  else if 0 < skip ∧ ¬ 0 < readings then .error "Cannot skip when reading all"
  else
    match spd.currentSample skip.toNat with
    | none => .ok none
    | some current =>
      match spd.targetSample readings.toNat skip.toNat with
      | none => .ok none
      | some target =>
        if target = current then .ok none
        else .ok (some (current.1 - target.1, current.2 - target.2))

/-- `Speedometer.speed` (lines 70-73): `delta` composed with
`delta_to_speed`; a None delta propagates (a 2-tuple is always truthy,
so `if d:` tests exactly `d is not None`). -/
def Speedometer.speed (spd : Speedometer) (readings skip : ℤ) : Except String (Option ℤ) :=
  match spd.delta readings skip with
  | .error e => .error e
  | .ok none => .ok none
  | .ok (some d) => .ok (some (delta_to_speed d.1 (d.2 : ℚ)))

/-- The loop body of `curve` (lines 239-252): iterate over the weights
`val = [6,5,4,3,2,1]` with index `i`; `break` when `delta(1, i)` is
None; otherwise accumulate `wtot += v` and `ws += float(b)*v/t`.
An assertion failure inside `delta` propagates.  (When `t = 0` Python
would raise ZeroDivisionError; rational division yields `b*v/0 = 0`
instead — theorem `c9_delta_time_positive` shows `t > 0` whenever the
recorded timestamps strictly increase, so that point is unreachable
then.) -/
def curveLoop (spd : Speedometer) : List ℤ → ℕ → ℤ → ℚ → Except String (ℤ × ℚ)
  | [], _, wtot, ws => .ok (wtot, ws)
  | v :: rest, i, wtot, ws =>
    match spd.delta 1 (i : ℤ) with
    | .error e => .error e
    | .ok none => .ok (wtot, ws)
    | .ok (some (t, b)) => curveLoop spd rest (i + 1) (wtot + v) (ws + (b : ℚ) * (v : ℚ) / t)

/-- `curve(spd)` (lines 239-252): weighted blend of the last six
single-step deltas, finished by `delta_to_speed((wtot, ws))`. -/
def curve (spd : Speedometer) : Except String ℤ :=
  match curveLoop spd [6, 5, 4, 3, 2, 1] 0 0 0 with
  | .error e => .error e
  | .ok (wtot, ws) => .ok (delta_to_speed (wtot : ℚ) ws)

/-- Decimal digits of a natural number, most significant first (the
digit sequence printf/Python produce for `%d`). -/
def natDigits (n : ℕ) : List Char :=
  if _h : n < 10 then [Nat.digitChar n]
  else natDigits (n / 10) ++ [Nat.digitChar (n % 10)]
decreasing_by exact Nat.div_lt_self (by omega) (by omega)

/-- Decimal string of a natural number. -/
def natRepr (n : ℕ) : String :=
  String.mk (natDigits n)

/-- Decimal string of an integer (Python `%d` body). -/
def intRepr (i : ℤ) : String :=
  (if i < 0 then "-" else "") ++ natRepr i.natAbs

/-- Left-pad with spaces to a minimum width (printf field width). -/
def padLeft (w : ℕ) (s : String) : String :=
  if s.length < w then String.mk (List.replicate (w - s.length) ' ') ++ s else s

/-- Left-pad with zeros to a minimum width (fractional digits). -/
def padZeros (d : ℕ) (s : String) : String :=
  if s.length < d then String.mk (List.replicate (d - s.length) '0') ++ s else s

/-- Python `"%wd" % i`: decimal, right-justified to width `w`. -/
def fmt_d (w : ℕ) (i : ℤ) : String :=
  padLeft w (intRepr i)

/-- Python `"%w.df" % x`: fixed-point with `d` decimals, right-justified
to width `w`.  The float-to-decimal rounding of printf is modelled as
rounding the exact rational to the nearest multiple of `10^-d`
(`round`, i.e. half away from the smaller value; the inputs exercised
by the spec are exact, so the tie rule is immaterial there). -/
def fmt_f (w d : ℕ) (x : ℚ) : String :=
  let scaled : ℤ := round (x * ((10 ^ d : ℕ) : ℚ))
  let ip : ℕ := scaled.natAbs / 10 ^ d
  let fp : ℕ := scaled.natAbs % 10 ^ d
  let core : String :=
    (if scaled < 0 then "-" else "") ++ natRepr ip ++ "." ++ padZeros d (natRepr fp)
  padLeft w core

/-- The unit ladder of `readable_speed` (line 221). -/
def speed_units : List String :=
  ["B/s", "KiB/s", "MiB/s", "GiB/s", "TiB/s"]

/-- The `for u in units` loop of `readable_speed` (lines 224-237):
for each unit, when `step > 1` first try the two-decimal then the
one-decimal format if they fit in 5 characters; otherwise fall back to
the integer format when `speed/step < 1024`, else multiply `step` by
1024 and move to the next unit.  Exhausting the ladder returns
`"%4d " % (speed/(step/1024)) + units[-1]`. -/
def readable_loop (speed : ℤ) (step : ℤ) : List String → String
  | [] => fmt_d 4 (Int.fdiv speed (Int.fdiv step 1024)) ++ " " ++ "TiB/s"
  | u :: rest =>
    let attempt : Option String :=
      if 1 < step then
        let s2 := fmt_f 4 2 ((speed : ℚ) / (step : ℚ)) ++ " "
        if s2.length ≤ 5 then some (s2 ++ u)
        else
          let s1 := fmt_f 4 1 ((speed : ℚ) / (step : ℚ)) ++ " "
          if s1.length ≤ 5 then some (s1 ++ u) else none
      else none
    match attempt with
    | some out => out
    | none =>
      if Int.fdiv speed step < 1024 then fmt_d 4 (Int.fdiv speed step) ++ " " ++ u
      else readable_loop speed (step * 1024) rest

/-- `readable_speed(speed)` (lines 212-237): a `None` or negative rate
is replaced by `0`, then the unit-ladder loop runs with `step = 1`. -/
def readable_speed (speed? : Option ℤ) : String :=
  let speed : ℤ := match speed? with
    | none => 0
    | some v => if v < 0 then 0 else v
  readable_loop speed 1 speed_units

/-- The threshold table of `graphic_speed` (line 268):
`[0]+[int(2**(x*5.0/3)) for x in range(20)]`.  The entries are spelled
as integer literals; theorem `c8` certifies that entry `x+1` is exactly
`⌊2^(5x/3)⌋`, i.e. the unique `n` with `n³ ≤ 2^(5x) < (n+1)³` (the
float computation in the source lands on the same floors: each exact
value sits at least 2.6e-3 away from the nearest integer while the
double-precision error is below 1e-5). -/
def speed_val : List ℤ :=
  [0, 1, 3, 10, 32, 101, 322, 1024, 3250, 10321, 32768, 104031, 330280,
   1048576, 3329021, 10568983, 33554432, 106528681, 338207481, 1073741824,
   3408917801]

/-- The 21 intensity glyphs of `graphic_speed` (lines 270-292). -/
def speed_gfx : List String :=
  ["\\                    ",
   ".\\                   ",
   "..\\                  ",
   "...\\                 ",
   "...:\\                ",
   "...::\\               ",
   "...:::\\              ",
   "...:::+|             ",
   "...:::++|            ",
   "...:::+++|           ",
   "...:::+++#|          ",
   "...:::+++##|         ",
   "...:::+++###|        ",
   "...:::+++###%|       ",
   "...:::+++###%%/      ",
   "...:::+++###%%%/     ",
   "...:::+++###%%%//    ",
   "...:::+++###%%%///   ",
   "...:::+++###%%%////  ",
   "...:::+++###%%%///// ",
   "...:::+++###%%%//////"]

/-- The `for i in range(len(speed_val)-1)` loop of `graphic_speed`
(lines 295-303), walking adjacent threshold/glyph pairs: skip while
`speed > high`; once `speed <= high`, return the glyph of `low` when
`speed - low < high - speed`, else the glyph of `high`.  Falling off
the end returns the last glyph (`speed_gfx[-1]`). -/
def gfxLoop (speed : ℤ) : List (ℤ × String) → String
  | (low, g) :: (high, g2) :: rest =>
    if high < speed then gfxLoop speed ((high, g2) :: rest)
    else if speed - low < high - speed then g
    else g2
  | [(_, g)] => g
  | [] => ""

/-- `graphic_speed(speed)` (lines 261-303): `None` is replaced by `0`,
then the threshold walk runs over the zipped table. -/
def graphic_speed (speed? : Option ℤ) : String :=
  gfxLoop (speed?.getD 0) (speed_val.zip speed_gfx)

/-- Modelled from the spec: "picking the glyph whose threshold the rate
is closest to (ties broken toward the higher glyph)".  The element of
the (threshold, glyph) list minimising the distance to `speed`; an
earlier element wins only when strictly closer, so ties go to the
higher-indexed one. -/
def closestPair (speed : ℤ) : List (ℤ × String) → Option (ℤ × String)
  | [] => none
  | p :: rest =>
    match closestPair speed rest with
    | none => some p
    | some q => if |speed - p.1| < |speed - q.1| then some p else some q

/-- A log of seven samples 1/2000 s apart whose counter grows by 1
each step: every single-step delta equals (1/2000, 1). -/
def curveCexSpd : Speedometer :=
  { log := [(0, 0), (1/2000, 1), (2/2000, 2), (3/2000, 3), (4/2000, 4),
      (5/2000, 5), (6/2000, 6)],
    start := some (0, 0),
    maxlog := 6 }

theorem int_toNat_two : (2 : ℤ).toNat = 2 := rfl

theorem int_toNat_three : (3 : ℤ).toNat = 3 := rfl

theorem int_toNat_four : (4 : ℤ).toNat = 4 := rfl

theorem int_toNat_five : (5 : ℤ).toNat = 5 := rfl

theorem pylong_intCast (n : ℤ) : pylong (n : ℚ) = n := by
  unfold pylong
  rw [Rat.num_intCast, Rat.den_intCast, Nat.cast_one]
  exact Int.tdiv_one n

theorem pylong_eq_floor {q : ℚ} (hq : 0 ≤ q) : pylong q = ⌊q⌋ := by
  unfold pylong
  rw [Int.tdiv_eq_ediv (Rat.num_nonneg.mpr hq) (Int.natCast_nonneg _)]
  exact Rat.floor_def.symm

theorem pylong_nonneg {q : ℚ} (hq : 0 ≤ q) : 0 ≤ pylong q := by
  rw [pylong_eq_floor hq]
  exact Int.floor_nonneg.mpr hq

theorem fdiv_eq_floor (a b : ℤ) (hb : 0 < b) :
    Int.fdiv a b = ⌊(a : ℚ) / (b : ℚ)⌋ := by
  have hbt : ((b.toNat : ℕ) : ℤ) = b := Int.toNat_of_nonneg hb.le
  have h1 : ((b.toNat : ℕ) : ℚ) = (b : ℚ) := by
    exact_mod_cast hbt
  rw [Int.fdiv_eq_ediv a hb.le, ← h1, Rat.floor_intCast_div_natCast a b.toNat, hbt]

theorem delta_to_speed_nonneg (t : ℚ) (b : ℤ) (hb : 0 ≤ b) :
    0 ≤ delta_to_speed t (b : ℚ) := by
  unfold delta_to_speed
  split
  · exact le_refl 0
  next ht =>
    split
    · exact le_refl 0
    next hne =>
      have ht' : 0 < t := lt_of_not_le ht
      have hb' : (0 : ℚ) ≤ (b : ℚ) := Int.cast_nonneg.mpr hb
      exact Int.fdiv_nonneg (pylong_nonneg (by positivity)) (pylong_nonneg (by positivity))

theorem lastN_length_le (k : ℕ) (l : List α) : (lastN k l).length ≤ k := by
  simp only [lastN, List.length_drop]
  omega

theorem lastN_append_lastN (k : ℕ) (hk : 1 ≤ k) (l : List α) (x : α) :
    lastN k (lastN k l ++ [x]) = lastN k (l ++ [x]) := by
  unfold lastN
  rcases le_or_lt l.length k with h | h
  · rw [Nat.sub_eq_zero_of_le h, List.drop_zero]
  · have hlen : (List.drop (l.length - k) l).length = k := by
      rw [List.length_drop]; omega
    rw [List.length_append, List.length_append, hlen]
    simp only [List.length_singleton]
    have h1 : k + 1 - k = 1 := by omega
    rw [h1]
    rw [List.drop_append_of_le_length (by omega), List.drop_drop,
        List.drop_append_of_le_length (by omega)]
    have h2 : l.length - k + 1 = l.length + 1 - k := by omega
    rw [h2]

theorem recordAll_closed (m : ℕ) (L : List (ℚ × ℤ)) :
    (Speedometer.init m).recordAll L =
      { log := lastN (m + 1) L, start := L.head?, maxlog := m } := by
  induction L using List.reverseRecOn with
  | nil => simp [Speedometer.recordAll, Speedometer.init, lastN]
  | append_singleton L x ih =>
    unfold Speedometer.recordAll at *
    rw [List.foldl_append, ih]
    simp only [List.foldl_cons, List.foldl_nil]
    unfold Speedometer.update
    cases L with
    | nil =>
      simp [lastN]
    | cons h tl =>
      simp only [List.head?_cons, List.cons_append]
      rw [lastN_append_lastN (m + 1) (by omega)]
      rfl

theorem delta_ok_pair (m : ℕ) (L : List (ℚ × ℤ)) (r s : ℤ) (t : ℚ) (b : ℤ)
    (h : ((Speedometer.init m).recordAll L).delta r s = .ok (some (t, b))) :
    ∃ (i j : ℕ) (hi : i < L.length) (hj : j < L.length), i < j ∧
      t = (L.get ⟨j, hj⟩).1 - (L.get ⟨i, hi⟩).1 ∧
      b = (L.get ⟨j, hj⟩).2 - (L.get ⟨i, hi⟩).2 := by
  rw [recordAll_closed] at h
  unfold Speedometer.delta at h
  split at h
  · simp at h
  split at h
  · simp at h
  split at h
  · simp at h
  split at h
  · simp at h
  split at h
  · simp at h
  rename_i current hcur
  split at h
  · simp at h
  rename_i target htgt
  split at h
  · simp at h
  rename_i hne
  simp only [Except.ok.injEq, Option.some.injEq, Prod.mk.injEq] at h
  obtain ⟨ht, hb⟩ := h
  unfold Speedometer.currentSample at hcur
  split at hcur
  · simp at hcur
  rename_i hs
  simp only [lastN] at hcur hs htgt
  rw [List.getElem?_drop] at hcur
  have hlend : (List.drop (L.length - (m + 1)) L).length = L.length - (L.length - (m + 1)) :=
    List.length_drop _ _
  have hjeq : L.length - (m + 1) + ((List.drop (L.length - (m + 1)) L).length - 1 - s.toNat)
      = L.length - 1 - s.toNat := by omega
  rw [hjeq] at hcur
  unfold Speedometer.targetSample at htgt
  split at htgt
  · -- readings == 0: the target is start = L.head?
    rw [List.head?_eq_getElem?] at htgt
    have hij : 0 < L.length - 1 - s.toNat := by
      by_contra h0
      push_neg at h0
      have hidx : L.length - 1 - s.toNat = 0 := by omega
      rw [hidx] at hcur
      rw [hcur] at htgt
      exact hne (by simpa using htgt.symm)
    rw [List.getElem?_eq_some_iff] at htgt hcur
    obtain ⟨hilt, htgt⟩ := htgt
    obtain ⟨hjlt, hcur⟩ := hcur
    refine ⟨0, L.length - 1 - s.toNat, hilt, hjlt, hij, ?_, ?_⟩
    · rw [← ht, ← hcur, ← htgt]
      simp [List.get_eq_getElem]
    · rw [← hb, ← hcur, ← htgt]
      simp [List.get_eq_getElem]
  · -- readings >= 1: the target comes from inside the log
    split at htgt
    · rename_i hr0 hrs
      simp only at htgt hrs
      rw [List.getElem?_drop] at htgt
      have hr1 : 1 ≤ r.toNat := Nat.pos_of_ne_zero hr0
      have hieq : L.length - (m + 1) +
          ((List.drop (L.length - (m + 1)) L).length - (r.toNat + s.toNat + 1))
          = L.length - (r.toNat + s.toNat + 1) := by omega
      rw [hieq] at htgt
      rw [List.getElem?_eq_some_iff] at htgt hcur
      obtain ⟨hilt, htgt⟩ := htgt
      obtain ⟨hjlt, hcur⟩ := hcur
      refine ⟨L.length - (r.toNat + s.toNat + 1), L.length - 1 - s.toNat, hilt, hjlt, ?_, ?_, ?_⟩
      · omega
      · rw [← ht, ← hcur, ← htgt]
        simp [List.get_eq_getElem]
      · rw [← hb, ← hcur, ← htgt]
        simp [List.get_eq_getElem]
    · simp at htgt

instance : IsTrans (ℚ × ℤ) (fun p q => p.2 ≤ q.2) :=
  ⟨fun _ _ _ h1 h2 => le_trans h1 h2⟩

instance : IsTrans (ℚ × ℤ) (fun p q => p.1 < q.1) :=
  ⟨fun _ _ _ h1 h2 => lt_trans h1 h2⟩

/-- C3: for every sequence of samples whose counter values are
monotonically non-decreasing, every rate produced by `delta_to_speed`
from a delta of two such samples — and hence every result of
`Speedometer.speed` — is nonnegative. -/
theorem c3_rate_nonneg (m : ℕ) (L : List (ℚ × ℤ)) (r s : ℤ)
    (hmono : List.Chain' (fun p q => p.2 ≤ q.2) L) :
    (∀ t b, ((Speedometer.init m).recordAll L).delta r s = .ok (some (t, b)) →
      0 ≤ delta_to_speed t (b : ℚ)) ∧
    (∀ v, ((Speedometer.init m).recordAll L).speed r s = .ok (some v) → 0 ≤ v) := by
  have hpair := List.chain'_iff_pairwise.mp hmono
  rw [List.pairwise_iff_getElem] at hpair
  have key : ∀ t b, ((Speedometer.init m).recordAll L).delta r s = .ok (some (t, b)) →
      0 ≤ delta_to_speed t (b : ℚ) := by
    intro t b h
    obtain ⟨i, j, hi, hj, hij, ht, hb⟩ := delta_ok_pair m L r s t b h
    have hble : (L.get ⟨i, hi⟩).2 ≤ (L.get ⟨j, hj⟩).2 := by
      have h2 := hpair i j hi hj hij
      simpa [List.get_eq_getElem] using h2
    refine delta_to_speed_nonneg t b ?_
    rw [hb]
    omega
  refine ⟨key, ?_⟩
  intro v h
  unfold Speedometer.speed at h
  split at h
  · simp at h
  · simp at h
  · rename_i d heq
    simp only [Except.ok.injEq, Option.some.injEq] at h
    rw [← h]
    exact key d.1 d.2 heq

theorem c3_witness : 0 ≤ delta_to_speed 1 ((5 : ℤ) : ℚ) :=
  (c3_rate_nonneg 6 [(0, 0), (1, 5)] 0 0 (by norm_num [List.chain'_cons])).1 1 5 (by
    norm_num [Speedometer.recordAll, Speedometer.update, Speedometer.init, lastN,
      Speedometer.delta, Speedometer.currentSample, Speedometer.targetSample, Prod.ext_iff])

/-- C9: if the timestamps of successively recorded samples are strictly
increasing, every non-None result of `delta` has `elapsed_time > 0`; in
particular each per-step division `float(b)*v/t` inside `curve` (whose
zero-time guard protects only the final accumulated pseudo-delta, not
the per-step normalisation) has a nonzero divisor. -/
theorem c9_delta_time_positive (m : ℕ) (L : List (ℚ × ℤ)) (r s : ℤ) (t : ℚ) (b : ℤ)
    (hstrict : List.Chain' (fun p q => p.1 < q.1) L)
    (h : ((Speedometer.init m).recordAll L).delta r s = .ok (some (t, b))) :
    0 < t := by
  have hpair := List.chain'_iff_pairwise.mp hstrict
  rw [List.pairwise_iff_getElem] at hpair
  obtain ⟨i, j, hi, hj, hij, ht, _hb⟩ := delta_ok_pair m L r s t b h
  have hlt : (L.get ⟨i, hi⟩).1 < (L.get ⟨j, hj⟩).1 := by
    have h2 := hpair i j hi hj hij
    simpa [List.get_eq_getElem] using h2
  rw [ht]
  exact sub_pos.mpr hlt

theorem c9_witness : 0 < (1 : ℚ) :=
  c9_delta_time_positive 6 [(0, 0), (1, 5)] 0 0 1 5 (by norm_num [List.chain'_cons]) (by
    norm_num [Speedometer.recordAll, Speedometer.update, Speedometer.init, lastN,
      Speedometer.delta, Speedometer.currentSample, Speedometer.targetSample, Prod.ext_iff])

/-- C6: `delta` fails with an invalid-argument error exactly when
`back_count < 0`, `back_count > capacity`, `skip < 0`, or `skip > 0`
with `back_count = 0` — for every log state, and never by silently
clamping (valid arguments never produce the error outcome). -/
theorem c6_invalid_args (spd : Speedometer) (r s : ℤ) :
    (∃ msg, spd.delta r s = .error msg) ↔
      (r < 0 ∨ (spd.maxlog : ℤ) < r ∨ s < 0 ∨ (0 < s ∧ r = 0)) := by
  constructor
  · rintro ⟨msg, hmsg⟩
    unfold Speedometer.delta at hmsg
    split at hmsg
    · rename_i h1
      left
      omega
    split at hmsg
    · rename_i h2
      right
      left
      omega
    split at hmsg
    · rename_i h3
      right
      right
      left
      omega
    split at hmsg
    · rename_i h1 h2 h3 h4
      right
      right
      right
      constructor
      · exact h4.1
      · omega
    · exfalso
      rcases hc : spd.currentSample s.toNat with _ | cur
      · simp only [hc] at hmsg
        simp at hmsg
      simp only [hc] at hmsg
      rcases htg : spd.targetSample r.toNat s.toNat with _ | tg
      · simp only [htg] at hmsg
        simp at hmsg
      simp only [htg] at hmsg
      split at hmsg <;> simp at hmsg
  · intro hbad
    unfold Speedometer.delta
    split
    · exact ⟨_, rfl⟩
    split
    · exact ⟨_, rfl⟩
    split
    · exact ⟨_, rfl⟩
    split
    · exact ⟨_, rfl⟩
    · rename_i h1 h2 h3 h4
      exfalso
      rw [not_not] at h1 h2 h3
      push_neg at h4
      rcases hbad with hb | hb | hb | hb
      · omega
      · omega
      · omega
      · exact absurd (h4 hb.1) (by omega)

/-- C10: `delta` compares the two selected samples by value: whenever
the selected current and target samples are equal as
(timestamp, counter) pairs — including two distinct log entries that
were recorded with identical timestamp and counter — it returns the
"insufficient data" outcome `None` rather than a `(0, 0)` delta. -/
theorem c10_value_equality (spd : Speedometer) (r s : ℤ) (p : ℚ × ℤ)
    (h1 : 0 ≤ r) (h2 : r ≤ (spd.maxlog : ℤ)) (h3 : 0 ≤ s) (h4 : 0 < s → 0 < r)
    (hcur : spd.currentSample s.toNat = some p)
    (htgt : spd.targetSample r.toNat s.toNat = some p) :
    spd.delta r s = .ok none := by
  have hno : ¬ (0 < s ∧ ¬ 0 < r) := by
    rintro ⟨hs0, hr0⟩
    exact hr0 (h4 hs0)
  unfold Speedometer.delta
  rw [if_neg (not_not_intro h1), if_neg (not_not_intro h2), if_neg (not_not_intro h3),
      if_neg hno]
  simp [hcur, htgt]

theorem c10_witness :
    (⟨[(5, 100), (5, 100)], some (5, 100), 6⟩ : Speedometer).delta 1 0 = .ok none :=
  c10_value_equality ⟨[(5, 100), (5, 100)], some (5, 100), 6⟩ 1 0 (5, 100)
    (by norm_num) (by norm_num) (by norm_num) (by norm_num)
    (by norm_num [Speedometer.currentSample])
    (by norm_num [Speedometer.targetSample])

theorem delta_zero_zero (m : ℕ) (L : List (ℚ × ℤ)) (f c : ℚ × ℤ)
    (hf : L.head? = some f) (hc : L.getLast? = some c) (hfc : f ≠ c) :
    ((Speedometer.init m).recordAll L).delta 0 0 = .ok (some (c.1 - f.1, c.2 - f.2)) := by
  have hne : L ≠ [] := by
    intro h0
    rw [h0] at hf
    simp at hf
  have hpos : 0 < L.length := List.length_pos.mpr hne
  rw [recordAll_closed]
  unfold Speedometer.delta
  rw [if_neg (by norm_num), if_neg (by simp), if_neg (by norm_num), if_neg (by norm_num)]
  have hcur : (⟨lastN (m + 1) L, L.head?, m⟩ : Speedometer).currentSample (0 : ℤ).toNat
      = some c := by
    unfold Speedometer.currentSample
    simp only [lastN, List.length_drop, Int.toNat_zero]
    rw [if_neg (by omega)]
    rw [List.getElem?_drop]
    have hidx : L.length - (m + 1) + (L.length - (L.length - (m + 1)) - 1 - 0)
        = L.length - 1 := by omega
    rw [hidx, ← List.getLast?_eq_getElem?]
    exact hc
  have htgt : (⟨lastN (m + 1) L, L.head?, m⟩ : Speedometer).targetSample
      (0 : ℤ).toNat (0 : ℤ).toNat = some f := by
    unfold Speedometer.targetSample
    simp [hf]
  rw [hcur, htgt]
  simp only []
  rw [if_neg hfc]

theorem delta_single_sample (m : ℕ) (p : ℚ × ℤ) :
    ((Speedometer.init m).recordAll [p]).delta 0 0 = .ok none := by
  rw [recordAll_closed]
  have hlog : lastN (m + 1) [p] = [p] := by
    have h0 : 1 - (m + 1) = 0 := by omega
    simp [lastN, h0]
  unfold Speedometer.delta
  rw [if_neg (by norm_num), if_neg (by simp), if_neg (by norm_num), if_neg (by norm_num)]
  have hcur : (⟨lastN (m + 1) [p], [p].head?, m⟩ : Speedometer).currentSample (0 : ℤ).toNat
      = some p := by
    unfold Speedometer.currentSample
    rw [hlog]
    simp
  have htgt : (⟨lastN (m + 1) [p], [p].head?, m⟩ : Speedometer).targetSample
      (0 : ℤ).toNat (0 : ℤ).toNat = some p := by
    unfold Speedometer.targetSample
    simp
  rw [hcur, htgt]
  simp

/-- C4: after every sequence of updates the log holds at most
`capacity + 1` samples and is exactly the newest suffix of the recorded
samples (FIFO eviction); `start` is the first sample ever recorded and
never changes; and after `capacity + 2` recordings the log holds
exactly the `capacity + 1` newest samples while the evicted start
sample remains reachable through `delta` with `back_count = 0`. -/
theorem c4_bounded_log (m : ℕ) (L : List (ℚ × ℤ)) :
    ((Speedometer.init m).recordAll L).log.length ≤ m + 1 ∧
    ((Speedometer.init m).recordAll L).log = L.drop (L.length - (m + 1)) ∧
    ((Speedometer.init m).recordAll L).start = L.head? ∧
    (L.length = m + 2 →
      ((Speedometer.init m).recordAll L).log = L.drop 1 ∧
      ((Speedometer.init m).recordAll L).log.length = m + 1 ∧
      ∀ f c, L.head? = some f → L.getLast? = some c → f ≠ c →
        ((Speedometer.init m).recordAll L).delta 0 0 = .ok (some (c.1 - f.1, c.2 - f.2))) := by
  refine ⟨?_, ?_, ?_, ?_⟩
  · rw [recordAll_closed]
    exact lastN_length_le (m + 1) L
  · rw [recordAll_closed]
    exact rfl
  · rw [recordAll_closed]
  · intro hlen
    refine ⟨?_, ?_, ?_⟩
    · rw [recordAll_closed]
      show lastN (m + 1) L = L.drop 1
      unfold lastN
      congr 1
      omega
    · rw [recordAll_closed]
      show (lastN (m + 1) L).length = m + 1
      simp only [lastN, List.length_drop]
      omega
    · intro f c hf hc hfc
      exact delta_zero_zero m L f c hf hc hfc

theorem c4_witness :
    ((Speedometer.init 1).recordAll [(0, 0), (1, 1), (2, 2)]).delta 0 0
      = .ok (some (2, 2)) := by
  have h := ((c4_bounded_log 1 [(0, 0), (1, 1), (2, 2)]).2.2.2 (by norm_num)).2.2
    (0, 0) (2, 2) rfl rfl (by decide)
  norm_num at h
  exact h

/-- C5 (amended): after exactly one recorded sample `delta(0, 0)`
returns None; after two or more recorded samples whose newest sample
differs from the start sample as a (timestamp, counter) pair,
`delta(0, 0)` returns the pair (newest timestamp - start timestamp,
newest counter - start counter); in the scenario with samples
(0, 0), (1, 1000), (2, 3000), `speed(1)` is 2000 B/s and `speed()` is
1500 B/s. -/
theorem c5_delta_from_start (m : ℕ) :
    (∀ p : ℚ × ℤ, ((Speedometer.init m).recordAll [p]).delta 0 0 = .ok none) ∧
    (∀ (L : List (ℚ × ℤ)) (f c : ℚ × ℤ), 2 ≤ L.length → L.head? = some f →
      L.getLast? = some c → f ≠ c →
      ((Speedometer.init m).recordAll L).delta 0 0 = .ok (some (c.1 - f.1, c.2 - f.2))) ∧
    ((Speedometer.init 6).recordAll [(0, 0), (1, 1000), (2, 3000)]).speed 1 0
      = .ok (some 2000) ∧
    ((Speedometer.init 6).recordAll [(0, 0), (1, 1000), (2, 3000)]).speed 0 0
      = .ok (some 1500) := by
  refine ⟨fun p => delta_single_sample m p, ?_, ?_, ?_⟩
  · intro L f c _ hf hc hfc
    exact delta_zero_zero m L f c hf hc hfc
  · norm_num [Speedometer.recordAll, Speedometer.update, Speedometer.init, lastN,
      Speedometer.speed, Speedometer.delta, Speedometer.currentSample,
      Speedometer.targetSample, delta_to_speed, pylong, Prod.ext_iff]
    decide
  · norm_num [Speedometer.recordAll, Speedometer.update, Speedometer.init, lastN,
      Speedometer.speed, Speedometer.delta, Speedometer.currentSample,
      Speedometer.targetSample, delta_to_speed, pylong, Prod.ext_iff]
    decide

theorem c5_witness :
    ((Speedometer.init 5).recordAll [(0, 0), (1, 1000), (2, 3000)]).delta 0 0
      = .ok (some (2, 3000)) := by
  have h := (c5_delta_from_start 5).2.1 [(0, 0), (1, 1000), (2, 3000)]
    (0, 0) (2, 3000) (by norm_num) rfl rfl (by decide)
  norm_num at h
  exact h

/-- C5 counterexample: two samples recorded with identical timestamp
and counter give `delta(0, 0) = None`, not a pair — so "after two or
more recorded samples, delta(0, 0) returns a pair" is false as
stated. -/
theorem c5_counterexample :
    ((Speedometer.init 5).recordAll [(0, 0), (0, 0)]).delta 0 0 = .ok none := by
  norm_num [Speedometer.recordAll, Speedometer.update, Speedometer.init, lastN,
    Speedometer.delta, Speedometer.currentSample, Speedometer.targetSample,
    Prod.ext_iff]

/-- C2 counterexample: on the delta (2, -1) the code returns the
floored quotient -1, while the integer-truncated quotient
`(byte_increase*1000)/(elapsed_time*1000)` is 0 — so "truncated rather
than rounded" is false as stated for negative byte increases. -/
theorem c2_counterexample :
    delta_to_speed 2 (-1) = -1 ∧
    Int.tdiv (pylong ((-1 : ℚ) * 1000)) (pylong ((2 : ℚ) * 1000)) = 0 := by
  constructor
  · norm_num [delta_to_speed, pylong]
    decide
  · norm_num [pylong]
    decide

/-- C2 (amended): `delta_to_speed` returns 0 when the elapsed time is
nonpositive or truncates to 0 at millisecond resolution (in particular
on (0, 1000) and (-1, 1000)); otherwise it returns the FLOOR of
`(byte_increase*1000) / (elapsed_time*1000)` — which coincides with
truncation for nonnegative byte increases but rounds toward negative
infinity, not toward zero, for negative ones. -/
theorem c2_speed_converter :
    (∀ t b : ℚ, t ≤ 0 → delta_to_speed t b = 0) ∧
    (∀ t b : ℚ, pylong (t * 1000) = 0 → delta_to_speed t b = 0) ∧
    delta_to_speed 0 1000 = 0 ∧
    delta_to_speed (-1) 1000 = 0 ∧
    (∀ (t : ℚ) (b : ℤ), 0 < t → pylong (t * 1000) ≠ 0 →
      delta_to_speed t (b : ℚ) = ⌊((b * 1000 : ℤ) : ℚ) / ((pylong (t * 1000) : ℤ) : ℚ)⌋) := by
  refine ⟨?_, ?_, ?_, ?_, ?_⟩
  · intro t b ht
    unfold delta_to_speed
    rw [if_pos ht]
  · intro t b h0
    simp [delta_to_speed, h0]
  · norm_num [delta_to_speed]
  · norm_num [delta_to_speed]
  · intro t b ht h0
    have hD : 0 < pylong (t * 1000) :=
      lt_of_le_of_ne (pylong_nonneg (by positivity)) (Ne.symm h0)
    unfold delta_to_speed
    rw [if_neg (not_le.mpr ht), if_neg h0]
    have hb : (b : ℚ) * 1000 = ((b * 1000 : ℤ) : ℚ) := by
      push_cast
      ring
    rw [hb, pylong_intCast]
    exact fdiv_eq_floor _ _ hD

theorem c2_witness :
    delta_to_speed 3 ((-7 : ℤ) : ℚ)
      = ⌊(((-7) * 1000 : ℤ) : ℚ) / ((pylong ((3 : ℚ) * 1000) : ℤ) : ℚ)⌋ :=
  c2_speed_converter.2.2.2.2 3 (-7) (by norm_num) (by
    norm_num [pylong])

theorem floor_div_int_floor (y : ℚ) (n : ℤ) (hn : 0 < n) :
    ⌊(⌊y⌋ : ℚ) / (n : ℚ)⌋ = ⌊y / (n : ℚ)⌋ := by
  have hnq : (0 : ℚ) < (n : ℚ) := by exact_mod_cast hn
  apply le_antisymm
  · apply Int.le_floor.mpr
    calc ((⌊(⌊y⌋ : ℚ) / (n : ℚ)⌋ : ℤ) : ℚ)
        ≤ (⌊y⌋ : ℚ) / (n : ℚ) := Int.floor_le _
      _ ≤ y / (n : ℚ) := by
          gcongr
          exact Int.floor_le y
  · apply Int.le_floor.mpr
    rw [le_div_iff₀ hnq]
    have h2 : (⌊y / (n : ℚ)⌋ : ℚ) * (n : ℚ) ≤ y := by
      rw [← le_div_iff₀ hnq]
      exact Int.floor_le _
    have h3 : ⌊y / (n : ℚ)⌋ * n ≤ ⌊y⌋ := by
      apply Int.le_floor.mpr
      push_cast
      exact h2
    exact_mod_cast h3

theorem curve_collapse (k : ℕ) (b : ℤ) (hk : 0 < k) (hb : 0 ≤ b) :
    delta_to_speed (21 : ℚ) (21 * (b : ℚ) / (k : ℚ)) = delta_to_speed (k : ℚ) (b : ℚ) := by
  have hkq : (0 : ℚ) < (k : ℚ) := by exact_mod_cast hk
  have hbq : (0 : ℚ) ≤ (b : ℚ) := by exact_mod_cast hb
  have h21 : pylong ((21 : ℚ) * 1000) = 21000 := by
    have h : ((21 : ℚ) * 1000) = ((21000 : ℤ) : ℚ) := by norm_num
    rw [h, pylong_intCast]
  have hkg : pylong ((k : ℚ) * 1000) = (k : ℤ) * 1000 := by
    have h : ((k : ℚ) * 1000) = (((k : ℤ) * 1000 : ℤ) : ℚ) := by push_cast; ring
    rw [h, pylong_intCast]
  have hbg : pylong ((b : ℚ) * 1000) = b * 1000 := by
    have h : ((b : ℚ) * 1000) = (((b * 1000 : ℤ)) : ℚ) := by push_cast; ring
    rw [h, pylong_intCast]
  unfold delta_to_speed
  rw [if_neg (by norm_num), if_neg (by rw [h21]; norm_num),
      if_neg (not_le.mpr hkq), if_neg (by rw [hkg]; positivity)]
  rw [h21, hkg, hbg]
  have hws : pylong (21 * (b : ℚ) / (k : ℚ) * 1000) = ⌊21000 * (b : ℚ) / (k : ℚ)⌋ := by
    rw [pylong_eq_floor (by positivity)]
    congr 1
    ring
  rw [hws]
  rw [fdiv_eq_floor _ 21000 (by norm_num), fdiv_eq_floor _ ((k : ℤ) * 1000) (by positivity)]
  rw [floor_div_int_floor (21000 * (b : ℚ) / (k : ℚ)) 21000 (by norm_num)]
  have e1 : 21000 * (b : ℚ) / (k : ℚ) / ((21000 : ℤ) : ℚ) = (b : ℚ) / (k : ℚ) := by
    have : ((21000 : ℤ) : ℚ) = (21000 : ℚ) := by norm_num
    rw [this]
    field_simp
    ring
  have hk0 : (k : ℚ) ≠ 0 := ne_of_gt hkq
  have e2 : ((b * 1000 : ℤ) : ℚ) / (((k : ℤ) * 1000 : ℤ) : ℚ) = (b : ℚ) / (k : ℚ) := by
    push_cast
    field_simp
    ring
  rw [e1, e2]

/-- C1 (amended): when the six most recent single-step deltas all equal
(t, b) with t a positive whole number of seconds and b >= 0, the curved
rate equals the per-step instantaneous rate. -/
theorem c1_curve_collapses (spd : Speedometer) (k : ℕ) (b : ℤ)
    (hk : 0 < k) (hb : 0 ≤ b)
    (h : ∀ i : ℕ, i < 6 → spd.delta 1 (i : ℤ) = .ok (some ((k : ℚ), b))) :
    curve spd = .ok (delta_to_speed (k : ℚ) (b : ℚ)) := by
  have h0 := h 0 (by norm_num)
  have h1 := h 1 (by norm_num)
  have h2 := h 2 (by norm_num)
  have h3 := h 3 (by norm_num)
  have h4 := h 4 (by norm_num)
  have h5 := h 5 (by norm_num)
  norm_num at h0 h1 h2 h3 h4 h5
  unfold curve
  norm_num [curveLoop, h0, h1, h2, h3, h4, h5]
  have hsum : (b : ℚ) * 6 / (k : ℚ) + (b : ℚ) * 5 / (k : ℚ) + (b : ℚ) * 4 / (k : ℚ)
      + (b : ℚ) * 3 / (k : ℚ) + (b : ℚ) * 2 / (k : ℚ) + (b : ℚ) / (k : ℚ)
      = 21 * (b : ℚ) / (k : ℚ) := by
    ring
  rw [hsum]
  exact curve_collapse k b hk hb

/-- C1 counterexample: all six single-step deltas of `curveCexSpd`
equal (1/2000, 1) with elapsed time 1/2000 > 0, yet `curve` returns
2000 while `delta_to_speed((1/2000, 1))` returns 0 (its
millisecond-truncation guard fires on each step but not on the
accumulated pseudo-delta), so the claim fails as stated for
sub-integer elapsed times. -/
theorem c1_counterexample :
    curveCexSpd.delta 1 0 = .ok (some (1/2000, 1)) ∧
    curveCexSpd.delta 1 1 = .ok (some (1/2000, 1)) ∧
    curveCexSpd.delta 1 2 = .ok (some (1/2000, 1)) ∧
    curveCexSpd.delta 1 3 = .ok (some (1/2000, 1)) ∧
    curveCexSpd.delta 1 4 = .ok (some (1/2000, 1)) ∧
    curveCexSpd.delta 1 5 = .ok (some (1/2000, 1)) ∧
    (0 : ℚ) < 1/2000 ∧
    curve curveCexSpd = .ok 2000 ∧
    delta_to_speed (1/2000) ((1 : ℤ) : ℚ) = 0 := by
  refine ⟨?_, ?_, ?_, ?_, ?_, ?_, ?_, ?_, ?_⟩ <;>
    (norm_num [curveCexSpd, curve, curveLoop, Speedometer.delta,
      Speedometer.currentSample, Speedometer.targetSample, delta_to_speed, pylong,
      Prod.ext_iff, Int.toNat_zero, Int.toNat_one, int_toNat_two, int_toNat_three,
      int_toNat_four, int_toNat_five] <;> decide)

theorem c1_witness :
    curve (⟨[(0, 0), (1, 2), (2, 4), (3, 6), (4, 8), (5, 10), (6, 12)],
        some (0, 0), 6⟩ : Speedometer)
      = .ok (delta_to_speed ((1 : ℕ) : ℚ) ((2 : ℤ) : ℚ)) :=
  c1_curve_collapses _ 1 2 (by norm_num) (by norm_num) (by
    intro i hi
    interval_cases i <;>
      norm_num [Speedometer.delta, Speedometer.currentSample, Speedometer.targetSample,
        Prod.ext_iff, Int.toNat_zero, Int.toNat_one, int_toNat_two, int_toNat_three,
        int_toNat_four, int_toNat_five])

theorem natDigits_length_pos (n : ℕ) : 1 ≤ (natDigits n).length := by
  rw [natDigits]
  split
  · simp
  · simp

theorem natDigits_length_ge (k : ℕ) : ∀ n : ℕ, 10 ^ k ≤ n → k + 1 ≤ (natDigits n).length := by
  induction k with
  | zero => exact fun n _ => natDigits_length_pos n
  | succ k ih =>
    intro n h
    have h10 : ¬ n < 10 := by
      have hp : (10 : ℕ) ≤ 10 ^ (k + 1) := by
        calc (10 : ℕ) = 10 ^ 1 := (pow_one 10).symm
          _ ≤ 10 ^ (k + 1) := Nat.pow_le_pow_right (by omega) (by omega)
      omega
    rw [natDigits, dif_neg h10, List.length_append]
    simp only [List.length_singleton]
    have hdiv : 10 ^ k ≤ n / 10 := by
      rw [Nat.le_div_iff_mul_le (by omega)]
      calc 10 ^ k * 10 = 10 ^ (k + 1) := by ring
        _ ≤ n := h
    have := ih (n / 10) hdiv
    omega

theorem length_natRepr (n : ℕ) : (natRepr n).length = (natDigits n).length := rfl

theorem length_padLeft (w : ℕ) (s : String) : (padLeft w s).length = max w s.length := by
  unfold padLeft
  split
  · rename_i h
    rw [String.length_append]
    have hrep : (String.mk (List.replicate (w - s.length) ' ')).length = w - s.length :=
      List.length_replicate _ _
    rw [hrep]
    omega
  · rename_i h
    omega

theorem length_padZeros (d : ℕ) (s : String) : (padZeros d s).length = max d s.length := by
  unfold padZeros
  split
  · rename_i h
    rw [String.length_append]
    have hrep : (String.mk (List.replicate (d - s.length) '0')).length = d - s.length :=
      List.length_replicate _ _
    rw [hrep]
    omega
  · rename_i h
    omega

theorem fmt_f_two_long (x : ℚ) (h : 1000 ≤ round (x * ((10 ^ 2 : ℕ) : ℚ))) :
    ¬ (fmt_f 4 2 x ++ " ").length ≤ 5 := by
  simp only [fmt_f]
  set scaled := round (x * ((10 ^ 2 : ℕ) : ℚ)) with hs
  rw [if_neg (by omega : ¬ scaled < 0)]
  have hip : 10 ≤ scaled.natAbs / 10 ^ 2 := by
    have hpow : (10 : ℕ) ^ 2 = 100 := by norm_num
    rw [hpow]
    omega
  have hlen : 2 ≤ (natRepr (scaled.natAbs / 10 ^ 2)).length := by
    rw [length_natRepr]
    have h2 := natDigits_length_ge 1 (scaled.natAbs / 10 ^ 2) (by rw [pow_one]; exact hip)
    omega
  rw [String.length_append, length_padLeft]
  simp only [String.length_append, length_padZeros]
  have h1 : ("" : String).length = 0 := rfl
  have h2 : ("." : String).length = 1 := rfl
  have h3 : (" " : String).length = 1 := rfl
  rw [h1, h2, h3]
  omega

theorem fmt_f_one_long (x : ℚ) (h : 1000 ≤ round (x * ((10 ^ 1 : ℕ) : ℚ))) :
    ¬ (fmt_f 4 1 x ++ " ").length ≤ 5 := by
  simp only [fmt_f]
  set scaled := round (x * ((10 ^ 1 : ℕ) : ℚ)) with hs
  rw [if_neg (by omega : ¬ scaled < 0)]
  have hip : 100 ≤ scaled.natAbs / 10 ^ 1 := by
    have hpow : (10 : ℕ) ^ 1 = 10 := by norm_num
    rw [hpow]
    omega
  have hlen : 3 ≤ (natRepr (scaled.natAbs / 10 ^ 1)).length := by
    rw [length_natRepr]
    have h2 := natDigits_length_ge 2 (scaled.natAbs / 10 ^ 1)
      (by norm_num only; rw [show (100 : ℕ) = 10 ^ 2 from by norm_num] at hip; exact hip)
    omega
  rw [String.length_append, length_padLeft]
  simp only [String.length_append, length_padZeros]
  have h1 : ("" : String).length = 0 := rfl
  have h2 : ("." : String).length = 1 := rfl
  have h3 : (" " : String).length = 1 := rfl
  rw [h1, h2, h3]
  omega

theorem readable_loop_step (s step : ℤ) (u : String) (rest : List String)
    (h1 : 1 < step) (hbig : 1024 * step ≤ s) :
    readable_loop s step (u :: rest) = readable_loop s (step * 1024) rest := by
  have hstep : 0 < step := by omega
  have hstepq : (0 : ℚ) < (step : ℚ) := by exact_mod_cast hstep
  have hxq : (1024 : ℚ) ≤ (s : ℚ) / (step : ℚ) := by
    rw [le_div_iff₀ hstepq]
    calc (1024 : ℚ) * (step : ℚ) = ((1024 * step : ℤ) : ℚ) := by push_cast; ring
      _ ≤ ((s : ℤ) : ℚ) := by exact_mod_cast hbig
  have hr2 : (1000 : ℤ) ≤ round ((s : ℚ) / (step : ℚ) * ((10 ^ 2 : ℕ) : ℚ)) := by
    rw [round_eq]
    apply Int.le_floor.mpr
    have hc : ((10 ^ 2 : ℕ) : ℚ) = 100 := by norm_num
    rw [hc]
    nlinarith [hxq]
  have hr1 : (1000 : ℤ) ≤ round ((s : ℚ) / (step : ℚ) * ((10 ^ 1 : ℕ) : ℚ)) := by
    rw [round_eq]
    apply Int.le_floor.mpr
    have hc : ((10 ^ 1 : ℕ) : ℚ) = 10 := by norm_num
    rw [hc]
    nlinarith [hxq]
  have h2 := fmt_f_two_long ((s : ℚ) / (step : ℚ)) hr2
  have h1f := fmt_f_one_long ((s : ℚ) / (step : ℚ)) hr1
  have h3 : ¬ Int.fdiv s step < 1024 := by
    rw [Int.fdiv_eq_ediv _ hstep.le]
    push_neg
    rw [Int.le_ediv_iff_mul_le hstep]
    linarith [hbig]
  simp only [readable_loop, if_pos h1, if_neg h2, if_neg h1f, if_neg h3]

theorem readable_loop_huge (s : ℤ) (hs : 2 ^ 50 ≤ s) :
    readable_loop s 1 speed_units = fmt_d 4 (Int.fdiv s (2 ^ 40)) ++ " " ++ "TiB/s" := by
  have h50 : (1125899906842624 : ℤ) ≤ s := by norm_num at hs; exact hs
  have hf1 : Int.fdiv s 1 = s := by rw [Int.fdiv_eq_ediv s (by norm_num), Int.ediv_one]
  have e0 : readable_loop s 1 speed_units
      = readable_loop s (1 * 1024) ["KiB/s", "MiB/s", "GiB/s", "TiB/s"] := by
    simp only [speed_units, readable_loop, if_neg (show ¬ (1 : ℤ) < 1 by norm_num)]
    rw [hf1, if_neg (show ¬ s < 1024 by omega)]
  rw [e0]
  rw [readable_loop_step s (1 * 1024) _ _ (by norm_num) (by omega)]
  rw [readable_loop_step s (1 * 1024 * 1024) _ _ (by norm_num) (by omega)]
  rw [readable_loop_step s (1 * 1024 * 1024 * 1024) _ _ (by norm_num) (by omega)]
  rw [readable_loop_step s (1 * 1024 * 1024 * 1024 * 1024) _ _ (by norm_num) (by omega)]
  simp only [readable_loop]
  have hB : Int.fdiv (1 * 1024 * 1024 * 1024 * 1024 * 1024) 1024 = 2 ^ 40 := by decide
  rw [hB]

theorem string_length_mk (l : List Char) : (String.mk l).length = l.length := rfl

theorem string_mk_append (a b : List Char) :
    String.mk a ++ String.mk b = String.mk (a ++ b) := rfl

set_option maxRecDepth 10000 in
/-- C7: `readable_speed` renders rate 0 as the plain integer string
"   0 B/s"; renders 1536 as "1.50 KiB/s"; treats a None or negative
rate as 0; and for every rate at or beyond the last ladder step
(s ≥ 2^50) formats with the final unit TiB/s — even when the integer
part overflows the usual 4-digit width, as at 2^60. -/
theorem c7_readable_speed :
    readable_speed (some 0) = "   0 B/s" ∧
    readable_speed (some 1536) = "1.50 KiB/s" ∧
    readable_speed none = readable_speed (some 0) ∧
    (∀ s : ℤ, s < 0 → readable_speed (some s) = readable_speed (some 0)) ∧
    (∀ s : ℤ, 2 ^ 50 ≤ s →
      readable_speed (some s) = fmt_d 4 (Int.fdiv s (2 ^ 40)) ++ " " ++ "TiB/s") ∧
    readable_speed (some (2 ^ 60)) = "1048576 TiB/s" := by
  refine ⟨?_, ?_, ?_, ?_, ?_, ?_⟩
  · simp [readable_speed, readable_loop, speed_units, fmt_d, intRepr, natRepr,
      natDigits, padLeft, Nat.digitChar, string_length_mk, string_mk_append]
    decide
  · have hscaled : round ((((1536 : ℤ) : ℚ)) / ((1024 : ℤ) : ℚ) * ((10 ^ 2 : ℕ) : ℚ))
        = 150 := by
      rw [round_eq]
      norm_num
    have hval : fmt_f 4 2 (((1536 : ℤ) : ℚ) / ((1024 : ℤ) : ℚ)) = "1.50" := by
      simp only [fmt_f]
      rw [hscaled]
      simp [natRepr, natDigits, Nat.digitChar, padZeros, padLeft, string_length_mk,
        string_mk_append]
      decide
    show readable_loop 1536 1 speed_units = "1.50 KiB/s"
    rw [show speed_units = ["B/s", "KiB/s", "MiB/s", "GiB/s", "TiB/s"] from rfl]
    rw [readable_loop]
    simp only [if_neg (show ¬ (1 : ℤ) < 1 by norm_num)]
    rw [if_neg (show ¬ Int.fdiv 1536 1 < 1024 by decide)]
    show readable_loop 1536 1024 ["KiB/s", "MiB/s", "GiB/s", "TiB/s"] = "1.50 KiB/s"
    rw [readable_loop]
    simp only [if_pos (show (1 : ℤ) < 1024 by norm_num), hval]
    rw [if_pos (show ("1.50" ++ " ").length ≤ 5 by decide)]
    decide
  · rfl
  · intro s hneg
    show readable_loop (if s < 0 then 0 else s) 1 speed_units = readable_speed (some 0)
    rw [if_pos hneg]
    rfl
  · intro s hs
    have h50 : (1125899906842624 : ℤ) ≤ s := by
      norm_num at hs
      exact hs
    show readable_loop (if s < 0 then 0 else s) 1 speed_units = _
    rw [if_neg (show ¬ s < 0 by omega)]
    exact readable_loop_huge s hs
  · show readable_loop (2 ^ 60) 1 speed_units = "1048576 TiB/s"
    rw [readable_loop_huge (2 ^ 60) (by norm_num)]
    rw [show Int.fdiv (2 ^ 60) (2 ^ 40) = 1048576 by decide]
    have h : fmt_d 4 1048576 = "1048576" := by
      simp [fmt_d, intRepr, natRepr, natDigits, Nat.digitChar, padLeft,
        string_length_mk, string_mk_append]
      decide
    rw [h]
    decide

theorem c7_witness :
    readable_speed (some (-7)) = readable_speed (some 0) ∧
    readable_speed (some (2 ^ 51)) = fmt_d 4 (Int.fdiv (2 ^ 51) (2 ^ 40)) ++ " " ++ "TiB/s" :=
  ⟨c7_readable_speed.2.2.2.1 (-7) (by norm_num),
   c7_readable_speed.2.2.2.2.1 (2 ^ 51) (by norm_num)⟩

instance : IsTrans (ℤ × String) (fun p q => p.1 < q.1) :=
  ⟨fun _ _ _ h1 h2 => lt_trans h1 h2⟩

theorem closestPair_ne_none (s : ℤ) (a : ℤ × String) (rest : List (ℤ × String)) :
    closestPair s (a :: rest) ≠ none := by
  rw [closestPair]
  rcases hr : closestPair s rest with _ | r
  · simp
  · simp only [hr]
    split <;> simp


theorem closestPair_mem (s : ℤ) : ∀ (l : List (ℤ × String)) (q : ℤ × String),
    closestPair s l = some q → q ∈ l := by
  intro l
  induction l with
  | nil =>
    intro q h
    simp [closestPair] at h
  | cons p rest ih =>
    intro q h
    rw [closestPair] at h
    rcases hr : closestPair s rest with _ | r
    · simp only [hr, Option.some.injEq] at h
      rw [← h]
      exact List.mem_cons_self p rest
    · simp only [hr] at h
      split at h
      · simp only [Option.some.injEq] at h
        rw [← h]
        exact List.mem_cons_self p rest
      · simp only [Option.some.injEq] at h
        rw [← h]
        exact List.mem_cons_of_mem p (ih r hr)

theorem closestPair_min (s : ℤ) : ∀ (l : List (ℤ × String)) (q : ℤ × String),
    closestPair s l = some q → ∀ p ∈ l, |s - q.1| ≤ |s - p.1| := by
  intro l
  induction l with
  | nil =>
    intro q h
    simp [closestPair] at h
  | cons a rest ih =>
    intro q h p hp
    rw [closestPair] at h
    rcases hr : closestPair s rest with _ | r
    · have hrest : rest = [] := by
        cases rest with
        | nil => rfl
        | cons b tl => exact absurd hr (closestPair_ne_none s b tl)
      subst hrest
      simp only [hr, Option.some.injEq] at h
      have hpa : p = a := List.mem_singleton.mp hp
      rw [← h, hpa]
    · simp only [hr] at h
      rcases List.mem_cons.mp hp with hpa | hpr
      · subst hpa
        split at h
        · simp only [Option.some.injEq] at h
          rw [← h]
        · rename_i hcond
          simp only [Option.some.injEq] at h
          rw [← h]
          push_neg at hcond
          exact hcond
      · split at h
        · rename_i hcond
          simp only [Option.some.injEq] at h
          rw [← h]
          exact le_trans hcond.le (ih r hr p hpr)
        · simp only [Option.some.injEq] at h
          rw [← h]
          exact ih r hr p hpr

theorem gfxLoop_eq_closestPair (s : ℤ) : ∀ (l : List (ℤ × String)),
    List.Chain' (fun p q => p.1 < q.1) l →
    gfxLoop s l = (match closestPair s l with | none => "" | some q => q.2) := by
  intro l
  induction l with
  | nil => intro _; rfl
  | cons a rest ih =>
    intro hchain
    cases rest with
    | nil =>
      obtain ⟨a1, g1⟩ := a
      simp [gfxLoop, closestPair]
    | cons b tl =>
      obtain ⟨a1, g1⟩ := a
      obtain ⟨b1, g2⟩ := b
      rcases List.chain'_cons.mp hchain with ⟨hab, htail⟩
      have hab2 : a1 < b1 := hab
      have hpa : (((a1, g1) : ℤ × String)).1 = a1 := rfl
      have hpb : (((b1, g2) : ℤ × String)).1 = b1 := rfl
      rw [gfxLoop]
      by_cases hs1 : b1 < s
      · rw [if_pos hs1, ih htail]
        rcases hr : closestPair s ((b1, g2) :: tl) with _ | r
        · exact absurd hr (closestPair_ne_none s (b1, g2) tl)
        · have hminb := closestPair_min s ((b1, g2) :: tl) r hr (b1, g2)
            (List.mem_cons_self _ _)
          rw [hpb] at hminb
          have hb : |s - b1| = s - b1 := abs_of_nonneg (by omega)
          have ha : |s - a1| = s - a1 := abs_of_nonneg (by omega)
          rw [closestPair]
          simp only [hr]
          rw [if_neg (by omega)]
      · rw [if_neg hs1]
        have hs1c : s ≤ b1 := by omega
        have hb : |s - b1| = b1 - s := by
          rw [abs_sub_comm]
          exact abs_of_nonneg (by omega)
        have hfirst : closestPair s ((b1, g2) :: tl) = some (b1, g2) := by
          rw [closestPair]
          rcases ht : closestPair s tl with _ | r
          · simp only [ht]
          · simp only [ht]
            have hmem := closestPair_mem s tl r ht
            have hblt : b1 < r.1 := by
              have hpw := List.chain'_iff_pairwise.mp htail
              exact (List.pairwise_cons.mp hpw).1 r hmem
            have hrx : |s - r.1| = r.1 - s := by
              rw [abs_sub_comm]
              exact abs_of_nonneg (by omega)
            rw [if_pos (by rw [hb, hrx]; omega)]
        rw [closestPair]
        simp only [hfirst]
        by_cases hcond : s - a1 < b1 - s
        · rw [if_pos hcond]
          rw [if_pos (by
            rw [hb]
            rcases abs_cases (s - a1) with ⟨h1, h2⟩ | ⟨h1, h2⟩ <;> omega)]
        · rw [if_neg hcond]
          rw [if_neg (by
            rw [hb]
            have ha : |s - a1| = s - a1 := abs_of_nonneg (by omega)
            omega)]

/-- C8: `graphic_speed` maps rate 0 (and None, treated as 0) to the
emptiest glyph; its threshold table is [0] followed by ⌊2^(i·5/3)⌋ for
i in 0..19 (entry i+1 is certified as the unique n with
n³ ≤ 2^(5i) < (n+1)³); and for every rate it returns the glyph whose
threshold is closest to the rate, ties — including a rate exactly at a
threshold — broken toward the higher-indexed glyph (`closestPair`
transcribes that spec rule). -/
theorem c8_graphic_speed :
    graphic_speed none = graphic_speed (some 0) ∧
    graphic_speed (some 0) = speed_gfx.getD 0 "" ∧
    speed_val.getD 0 0 = 0 ∧
    (∀ i : ℕ, i < 20 →
      0 ≤ speed_val.getD (i + 1) 0 ∧
      (speed_val.getD (i + 1) 0) ^ 3 ≤ 2 ^ (5 * i) ∧
      2 ^ (5 * i) < (speed_val.getD (i + 1) 0 + 1) ^ 3) ∧
    (∀ s : ℤ, graphic_speed (some s)
      = (match closestPair s (speed_val.zip speed_gfx) with
         | none => ""
         | some q => q.2)) := by
  refine ⟨rfl, by decide, rfl, by decide, ?_⟩
  intro s
  show gfxLoop s (speed_val.zip speed_gfx) = _
  exact gfxLoop_eq_closestPair s (speed_val.zip speed_gfx)
    (by norm_num [speed_val, speed_gfx, List.zip_cons_cons, List.chain'_cons])

theorem c8_witness :
    0 ≤ speed_val.getD (3 + 1) 0 ∧
    (speed_val.getD (3 + 1) 0) ^ 3 ≤ 2 ^ (5 * 3) ∧
    2 ^ (5 * 3) < (speed_val.getD (3 + 1) 0 + 1) ^ 3 :=
  c8_graphic_speed.2.2.2.1 3 (by norm_num)

theorem c6_witness :
    ∃ msg, (Speedometer.init 5).delta (-1) 0 = .error msg :=
  (c6_invalid_args (Speedometer.init 5) (-1) 0).mpr (by norm_num)
